import Mathlib

/-!
Verification of the mio StringReader (src/mio/include/mio/stringreader.hpp), a
memory mapped line reader with a sequential pull API (getline), a sequential
push driver (getline with an OnGetline handler), and a parallel path
(getline_async) that partitions the mapped region into chunks via find_end and
scans each chunk with do_getline_async.

The mapped file is modelled as a list of bytes (Char); char pointers into the
mapping are modelled as offsets, with the null pointer modelled as none.
-/

namespace Wxlib

/-- std::find(begin + o, begin + e, LF) over the mapped bytes: the index of the
first line terminator at a position at least o and below e, or e when the
scanned range holds none. A scan start past the end of a valid range is
undefined in C and modelled as finding nothing. -/
def findNL (data : List Char) (o e : Nat) : Nat :=
  let s := (data.drop o).take (e - o)
  let j := s.findIdx (· == '\n')
  if j < s.length then o + j else e

/-- Modelled from the spec: the external MappedSource collaborator
(mio::mmap_source, whose implementation is not under src). It owns an immutable
contiguous byte view of the whole file plus the mapped/unmapped state, and
offers an explicit unmap operation. -/
structure mmap_source where
  data : List Char
  mapped : Bool

/-- size(): the byte size of the mapped region. -/
def mmap_source.size (m : mmap_source) : Nat := m.data.length

/-- is_mapped(): whether the mapping is still held. -/
def mmap_source.is_mapped (m : mmap_source) : Bool := m.mapped

/-- unmap(): release the mapping. -/
def mmap_source.unmap (m : mmap_source) : mmap_source := { m with mapped := false }

/-- The StringReader state: the mapped source m_mmap plus the cursor m_begin.
m_begin models the char pointer; none models nullptr and some o models the
pointer begin + o. -/
structure StringReader where
  m_mmap : mmap_source
  m_begin : Option Nat

/-- The constructor body after a successful mapping: m_begin = m_mmap.begin(),
that is offset 0 into the mapped contents. -/
def StringReader.ofContents (contents : List Char) : StringReader :=
  { m_mmap := { data := contents, mapped := true }, m_begin := some 0 }

/-- Modelled from the spec: constructing a reader on a filesystem path. The
mmap_source constructor (not under src) throws a descriptive error when the
file does not exist or cannot be opened or mapped; the filesystem is a partial
map from paths to file contents, and an absent entry stands for a
non-existent or unreadable file. -/
def StringReader.construct (fs : String → Option (List Char)) (path : String) :
    Except String StringReader :=
  match fs path with
  | none => Except.error ("cannot open or map file: " ++ path)
  | some contents => Except.ok (StringReader.ofContents contents)

/-- eof(): m_begin == nullptr. -/
def StringReader.eof (s : StringReader) : Bool := s.m_begin.isNone

/-- is_mapped(): forwards to m_mmap.is_mapped(). -/
def StringReader.is_mapped (s : StringReader) : Bool := s.m_mmap.is_mapped

/-- The destructor body: m_mmap.unmap(). Nothing else in the class ever
unmaps. -/
def StringReader.release (s : StringReader) : StringReader :=
  { s with m_mmap := s.m_mmap.unmap }

/-- getline(): scan from m_begin to m_mmap.end() for the next terminator. When
found at f the returned view is (m_begin, f - m_begin), terminator excluded,
and the cursor advances to f + 1; otherwise l_begin and l_find are both set to
nullptr, so the cursor becomes nullptr and the returned view is the end of
file sentinel with nullptr data and length 0, modelled as none. Calling with
m_begin already nullptr would be undefined in C (the documented precondition
excludes it); the model returns the sentinel and leaves the state unchanged. -/
def StringReader.getline (s : StringReader) : Option (Nat × Nat) × StringReader :=
  match s.m_begin with
  | none => (none, s)
  | some o =>
    let e := s.m_mmap.size
    let f := findNL s.m_mmap.data o e
    if f ≠ e then (some (o, f - o), { s with m_begin := some (f + 1) })
    else (none, { s with m_begin := none })

/-- The bytes a returned string_view designates; the end of file sentinel with
nullptr data and length 0 designates no bytes. -/
def viewBytes (data : List Char) : Option (Nat × Nat) → List Char
  | none => []
  | some p => (data.drop p.1).take p.2

/-- Termination measure for the sequential driver loop: how far the cursor can
still travel before the scan must reach the sentinel. -/
def readerMeasure (s : StringReader) : Nat :=
  match s.m_begin with
  | none => 0
  | some o => s.m_mmap.size + 1 - min o s.m_mmap.size

/-- getline(OnGetline), the sequential push driver: while not eof(), hand the
view returned by getline() to the handler and increment the count. Returns the
count of handler invocations, the views handed over in order, and the final
reader state. -/
def StringReader.getline_cb (s : StringReader) :
    Nat × List (Option (Nat × Nat)) × StringReader :=
  match hm : s.m_begin with
  | none => (0, [], s)
  | some _ =>
    let p := s.getline
    let r := p.2.getline_cb
    (r.1 + 1, p.1 :: r.2.1, r.2.2)
termination_by readerMeasure s
decreasing_by
  rename_i o
  have key : ∀ (d : List Char) (a b : Nat), findNL d a b ≠ b →
      a ≤ findNL d a b ∧ findNL d a b < b := by
    intro d a b hne
    unfold findNL at hne ⊢
    simp only at hne ⊢
    by_cases hj : ((d.drop a).take (b - a)).findIdx (· == '\n') <
        ((d.drop a).take (b - a)).length
    · rw [if_pos hj] at hne ⊢
      have h1 : ((d.drop a).take (b - a)).length ≤ b - a := by
        simp [List.length_take]
      omega
    · rw [if_neg hj] at hne
      exact absurd rfl hne
  simp only [StringReader.getline, hm]
  by_cases hf : findNL s.m_mmap.data o s.m_mmap.size ≠ s.m_mmap.size
  · have hk := key s.m_mmap.data o s.m_mmap.size hf
    simp only [if_pos hf, readerMeasure, hm]
    omega
  · simp only [if_neg hf, readerMeasure, hm]
    omega

/-- do_getline_async, the per chunk worker: scan [a_begin, a_end) with
std::find; for every terminator found, hand the view
(l_begin, l_find - l_begin) to the handler and bump the counter, then resume
just past the terminator; stop when the scan reaches a_end without a
terminator. Returns the counter and the views in invocation order. -/
def do_getline_async (data : List Char) (b e : Nat) : Nat × List (Nat × Nat) :=
  let f := findNL data b e
  if hf : f ≠ e then
    let r := do_getline_async data (f + 1) e
    (r.1 + 1, (b, f - b) :: r.2)
  else (0, [])
termination_by e - b
decreasing_by
  have key : ∀ (d : List Char) (a c : Nat), findNL d a c ≠ c →
      a ≤ findNL d a c ∧ findNL d a c < c := by
    intro d a c hne
    unfold findNL at hne ⊢
    simp only at hne ⊢
    by_cases hj : ((d.drop a).take (c - a)).findIdx (· == '\n') <
        ((d.drop a).take (c - a)).length
    · rw [if_pos hj] at hne ⊢
      have h1 : ((d.drop a).take (c - a)).length ≤ c - a := by
        simp [List.length_take]
      omega
    · rw [if_neg hj] at hne
      exact absurd rfl hne
  have hk := key data b e hf
  omega

/-- The reverse std::find inside find_end: scan the window [o, o + a) backward
for the last terminator and return the base of the found reverse iterator.
The base of a reverse iterator is one past its element, so the result is one
past the last terminator in the window, or o when the window holds none.
Window bytes beyond the mapping would be garbage reads in C (undefined); the
model reads them as non-terminators. -/
def rfind_base (data : List Char) (o a : Nat) : Nat :=
  let s := (data.drop o).take a
  let j := s.reverse.findIdx (· == '\n')
  if j < s.length then o + (s.length - j) else o

/-- find_end: std::next applied to the base of the reverse find, one byte past
the value the reverse scan produced. -/
def find_end (data : List Char) (o a : Nat) : Nat := rfind_base data o a + 1

/-- One pass of the dispatch loop in getline_async: at each iteration the
current (l_begin, l_end) chunk is dispatched, then l_begin becomes l_end and
l_end becomes find_end(l_begin, l_adv), replaced by the region end when
std::distance(l_end, m_mmap.end()) < l_adv. That comparison converts the
signed distance to the unsigned type of l_adv, so a negative distance (l_end
past the end) becomes a huge unsigned value and is NOT replaced; hence the
replacement applies exactly when l_end ≤ size and size - l_end < l_adv. -/
def chunkLoop (data : List Char) (adv : Nat) : Nat → Nat → Nat → List (Nat × Nat)
  | 0, _, _ => []
  | i + 1, b, e =>
    let b2 := e
    let e2 := find_end data b2 adv
    let e3 := if e2 ≤ data.length ∧ data.length - e2 < adv then data.length else e2
    (b, e) :: chunkLoop data adv i b2 e3

/-- The chunk ranges dispatched by getline_async on the parallel path, started
from cursor offset o: l_adv = size / NumThreads, the initial
l_end = find_end(m_begin, l_adv) computed before the loop (never replaced by
the region end), then NumThreads loop iterations. -/
def chunks (data : List Char) (numThreads o : Nat) : List (Nat × Nat) :=
  let adv := data.length / numThreads
  chunkLoop data adv numThreads o (find_end data o adv)

/-- getline_async on a freshly constructed reader (m_begin at offset 0, as in
every claim): when the mapped size is below MinFileByteSize it falls back to
the sequential push driver and returns its count; otherwise it dispatches one
do_getline_async per chunk and accumulates the per chunk counts. The template
constraints 2 ≤ NumThreads ≤ 8 and 1 MiB ≤ MinFileByteSize appear as
hypotheses on the theorems. -/
def getline_async (numThreads minFileByteSize : Nat) (data : List Char) : Nat :=
  if data.length < minFileByteSize then
    (StringReader.ofContents data).getline_cb.1
  else
    ((chunks data numThreads 0).map fun p => (do_getline_async data p.1 p.2).1).sum

/-- Specification side: the positions of the line terminators in [b, e), in
increasing order. -/
def termPositions (data : List Char) (b e : Nat) : List Nat :=
  (List.range' b (e - b)).filter fun i => data[i]? == some '\n'

/-- Specification side: the (start, length) views a correct scan of [b, e)
hands out, one per terminator: each view runs from one past the previous
terminator (or from b for the first) up to its own terminator, exclusive. -/
def expectedLines (data : List Char) (b e : Nat) : List (Nat × Nat) :=
  let ps := termPositions data b e
  ((b :: ps.map (· + 1)).zip ps).map fun q => (q.1, q.2 - q.1)

/-- A one MiB file holding a single terminated line: 2 ^ 20 - 1 times the byte
x, then one LF. Every line of it ends with a terminator and its size meets the
smallest MinFileByteSize that getline_async accepts. -/
def bigFile : List Char := List.replicate (2 ^ 20 - 1) 'x' ++ ['\n']

/-- The file a LF b LF c: two terminated lines and a trailing unterminated
byte. -/
def fileA : List Char := ['a', '\n', 'b', '\n', 'c']

/-- A non-empty file with no terminator at all. -/
def fileB : List Char := ['a', 'b', 'c']

/-- The file a LF b LF c LF: three terminated lines. -/
def fileC : List Char := ['a', '\n', 'b', '\n', 'c', '\n']

/-! Helper lemmas: characterization of the forward scan. -/

theorem findNL_le (data : List Char) (o e : Nat) : findNL data o e ≤ e := by
  unfold findNL
  simp only
  by_cases hj : ((data.drop o).take (e - o)).findIdx (· == '\n') <
      ((data.drop o).take (e - o)).length
  · rw [if_pos hj]
    have h1 : ((data.drop o).take (e - o)).length ≤ e - o := by
      simp [List.length_take]
    omega
  · rw [if_neg hj]

theorem slice_getElem (data : List Char) (o e j : Nat) (hj : j < e - o) :
    ((data.drop o).take (e - o))[j]? = data[o + j]? := by
  rw [List.getElem?_take_of_lt hj, List.getElem?_drop]

theorem findNL_lt_spec (data : List Char) (o e : Nat) (h : findNL data o e ≠ e) :
    o ≤ findNL data o e ∧ findNL data o e < e ∧
      data[findNL data o e]? = some '\n' ∧
      ∀ i, o ≤ i → i < findNL data o e → data[i]? ≠ some '\n' := by
  unfold findNL at h ⊢
  simp only at h ⊢
  by_cases hj : ((data.drop o).take (e - o)).findIdx (· == '\n') <
      ((data.drop o).take (e - o)).length
  · rw [if_pos hj] at h ⊢
    have h1 : ((data.drop o).take (e - o)).length ≤ e - o := by
      simp [List.length_take]
    have h2 : ((data.drop o).take (e - o)).length ≤ data.length - o := by
      simp [List.length_take]
    refine ⟨by omega, by omega, ?_, ?_⟩
    · have hg : (((data.drop o).take (e - o))[((data.drop o).take (e - o)).findIdx
          (· == '\n')] == '\n') = true :=
        @List.findIdx_getElem _ (· == '\n') _ hj
      have hq : ((data.drop o).take (e - o))[((data.drop o).take (e - o)).findIdx
          (· == '\n')]? = some '\n' := by
        rw [List.getElem?_eq_getElem hj, eq_of_beq hg]
      rw [slice_getElem data o e _ (by omega)] at hq
      exact hq
    · intro i hoi hif hcon
      have hk : i - o < ((data.drop o).take (e - o)).findIdx (· == '\n') := by omega
      have hklt : i - o < ((data.drop o).take (e - o)).length := by omega
      have hne : (((data.drop o).take (e - o))[i - o] == '\n') = false :=
        List.not_of_lt_findIdx hk
      have hq : ((data.drop o).take (e - o))[i - o]? = data[i]? := by
        rw [slice_getElem data o e _ (by omega)]
        congr 1
        omega
      rw [List.getElem?_eq_getElem hklt, hcon] at hq
      have hv : ((data.drop o).take (e - o))[i - o] = '\n' := Option.some_injective _ hq
      rw [hv] at hne
      simp at hne
  · rw [if_neg hj] at h
    exact absurd rfl h

theorem findNL_eq_spec (data : List Char) (o e : Nat) (he : e ≤ data.length)
    (h : findNL data o e = e) :
    ∀ i, o ≤ i → i < e → data[i]? ≠ some '\n' := by
  intro i hoi hie hcon
  unfold findNL at h
  simp only at h
  set s := (data.drop o).take (e - o) with hs
  have hslen : s.length = e - o := by
    simp [hs, List.length_take, List.length_drop]
    omega
  by_cases hj : s.findIdx (· == '\n') < s.length
  · rw [if_pos hj] at h
    omega
  · have hfi : s.findIdx (· == '\n') = s.length :=
      Nat.le_antisymm (List.findIdx_le_length _) (by omega)
    have hall : ∀ x ∈ s, (x == '\n') = false := List.findIdx_eq_length.mp hfi
    have hklt : i - o < s.length := by omega
    have hq : s[i - o]? = data[i]? := by
      rw [hs, List.getElem?_take_of_lt (by omega), List.getElem?_drop]
      congr 1
      omega
    rw [List.getElem?_eq_getElem hklt, hcon] at hq
    have hv : s[i - o] = '\n' := Option.some_injective _ hq
    have := hall _ (List.getElem_mem hklt)
    rw [hv] at this
    simp at this

/-! Helper lemmas: structure of the terminator position list. -/

theorem termPositions_nil (data : List Char) (b e : Nat) (he : e ≤ data.length)
    (h : findNL data b e = e) : termPositions data b e = [] := by
  unfold termPositions
  rw [List.filter_eq_nil_iff]
  intro i hi
  rw [List.mem_range'] at hi
  obtain ⟨k, hk, rfl⟩ := hi
  have := findNL_eq_spec data b e he h (b + 1 * k) (by omega) (by omega)
  simpa using this

theorem termPositions_cons (data : List Char) (b e : Nat) (he : e ≤ data.length)
    (h : findNL data b e ≠ e) :
    termPositions data b e =
      findNL data b e :: termPositions data (findNL data b e + 1) e := by
  obtain ⟨hbf, hfe, hft, hmin⟩ := findNL_lt_spec data b e h
  set f := findNL data b e with hf
  have hsplit : List.range' b (e - b) =
      List.range' b (f - b) ++ List.range' (b + (f - b)) (e - f) := by
    rw [List.range'_append_1]
    congr 1
    omega
  unfold termPositions
  rw [hsplit, List.filter_append]
  have h1 : (List.range' b (f - b)).filter (fun i => data[i]? == some '\n') = [] := by
    rw [List.filter_eq_nil_iff]
    intro i hi
    rw [List.mem_range'] at hi
    obtain ⟨k, hk, rfl⟩ := hi
    have := hmin (b + 1 * k) (by omega) (by omega)
    simpa using this
  have hbf2 : b + (f - b) = f := by omega
  have hcount : e - f = (e - (f + 1)) + 1 := by omega
  rw [h1, hbf2, hcount, List.range'_succ]
  rw [List.filter_cons_of_pos (by simpa using hft)]
  simp

/-! Helper lemmas: structure of the expected view list. -/

theorem expectedLines_nil (data : List Char) (b e : Nat)
    (h : termPositions data b e = []) : expectedLines data b e = [] := by
  unfold expectedLines
  rw [h]
  simp

theorem expectedLines_cons (data : List Char) (b e f : Nat)
    (h : termPositions data b e = f :: termPositions data (f + 1) e) :
    expectedLines data b e = (b, f - b) :: expectedLines data (f + 1) e := by
  unfold expectedLines
  rw [h]
  simp [List.zip_cons_cons]

/-! Helper lemmas: single steps of getline and of the push driver. -/

theorem getline_none (s : StringReader) (h : s.m_begin = none) :
    s.getline = (none, s) := by
  unfold StringReader.getline
  rw [h]

theorem getline_found (s : StringReader) (o : Nat) (h2 : s.m_begin = some o)
    (hf : findNL s.m_mmap.data o s.m_mmap.size ≠ s.m_mmap.size) :
    s.getline = (some (o, findNL s.m_mmap.data o s.m_mmap.size - o),
      { s with m_begin := some (findNL s.m_mmap.data o s.m_mmap.size + 1) }) := by
  unfold StringReader.getline
  rw [h2]
  simp only [if_pos hf]

theorem getline_end (s : StringReader) (o : Nat) (h2 : s.m_begin = some o)
    (hf : findNL s.m_mmap.data o s.m_mmap.size = s.m_mmap.size) :
    s.getline = (none, { s with m_begin := none }) := by
  unfold StringReader.getline
  rw [h2]
  simp only [hf, ne_eq, not_true_eq_false, if_false, ite_self]

theorem getline_cb_eof (s : StringReader) (h : s.m_begin = none) :
    s.getline_cb = (0, [], s) := by
  unfold StringReader.getline_cb
  split
  · rfl
  · rename_i o2 hsome
    rw [h] at hsome
    exact absurd hsome (by simp)

theorem getline_cb_step (s : StringReader) (o : Nat) (h : s.m_begin = some o) :
    s.getline_cb =
      ((s.getline).2.getline_cb.1 + 1,
       (s.getline).1 :: (s.getline).2.getline_cb.2.1,
       (s.getline).2.getline_cb.2.2) := by
  conv_lhs => unfold StringReader.getline_cb
  split
  · rename_i hnone
    rw [h] at hnone
    exact absurd hnone (by simp)
  · rfl

/-! The per chunk worker meets its specification: one callback per terminator,
in increasing position order, each view spanning from one past the previous
terminator (or the chunk start) up to the terminator, exclusive. -/

theorem do_getline_async_spec_aux (data : List Char) :
    ∀ (n b e : Nat), e - b ≤ n → b ≤ e → e ≤ data.length →
      do_getline_async data b e =
        ((termPositions data b e).length, expectedLines data b e) := by
  intro n
  induction n with
  | zero =>
    intro b e h1 h2 h3
    have hbe : b = e := by omega
    subst hbe
    have hf : findNL data b b = b := by
      unfold findNL
      simp
    unfold do_getline_async
    rw [dif_neg (by simp [hf])]
    rw [termPositions_nil data b b h3 hf,
      expectedLines_nil data b b (termPositions_nil data b b h3 hf)]
    rfl
  | succ n ih =>
    intro b e h1 h2 h3
    by_cases hf : findNL data b e = e
    · unfold do_getline_async
      rw [dif_neg (by simp [hf])]
      rw [termPositions_nil data b e h3 hf,
        expectedLines_nil data b e (termPositions_nil data b e h3 hf)]
      rfl
    · obtain ⟨hbf, hfe, _, _⟩ := findNL_lt_spec data b e hf
      unfold do_getline_async
      rw [dif_pos hf]
      have hrec := ih (findNL data b e + 1) e (by omega) (by omega) h3
      have ht := termPositions_cons data b e h3 hf
      rw [hrec, ht, expectedLines_cons data b e _ ht]
      rfl

theorem do_getline_async_spec (data : List Char) (b e : Nat) (hbe : b ≤ e)
    (hel : e ≤ data.length) :
    do_getline_async data b e =
      ((termPositions data b e).length, expectedLines data b e) :=
  do_getline_async_spec_aux data (e - b) b e le_rfl hbe hel

/-! The sequential push driver characterized in closed form: it hands over one
view per terminator from the cursor on, plus the final end of file sentinel,
counts every invocation including the sentinel one, and ends with a null
cursor while leaving the mapping untouched. -/

theorem getline_cb_spec_aux :
    ∀ (n : Nat) (s : StringReader) (o : Nat), readerMeasure s ≤ n →
      s.m_begin = some o →
      s.getline_cb =
        ((termPositions s.m_mmap.data o s.m_mmap.data.length).length + 1,
         (expectedLines s.m_mmap.data o s.m_mmap.data.length).map some ++ [none],
         { s with m_begin := none }) := by
  intro n
  induction n with
  | zero =>
    intro s o h1 h2
    exfalso
    simp only [readerMeasure, h2] at h1
    omega
  | succ n ih =>
    intro s o h1 h2
    rw [getline_cb_step s o h2]
    by_cases hf : findNL s.m_mmap.data o s.m_mmap.size = s.m_mmap.size
    · rw [getline_end s o h2 hf]
      rw [getline_cb_eof _ (by rfl)]
      have htp : termPositions s.m_mmap.data o s.m_mmap.data.length = [] :=
        termPositions_nil _ _ _ le_rfl hf
      rw [htp, expectedLines_nil _ _ _ htp]
      rfl
    · obtain ⟨hbf, hfe, _, _⟩ := findNL_lt_spec s.m_mmap.data o s.m_mmap.size hf
      rw [getline_found s o h2 hf]
      set f := findNL s.m_mmap.data o s.m_mmap.size with hfdef
      have hm2 : readerMeasure { s with m_begin := some (f + 1) } ≤ n := by
        simp only [readerMeasure, h2] at h1
        simp only [readerMeasure]
        unfold mmap_source.size at h1 hfe ⊢
        omega
      have hrec := ih _ (f + 1) hm2 rfl
      rw [hrec]
      have ht : termPositions s.m_mmap.data o s.m_mmap.data.length =
          f :: termPositions s.m_mmap.data (f + 1) s.m_mmap.data.length :=
        termPositions_cons _ _ _ le_rfl hf
      rw [ht, expectedLines_cons _ _ _ _ ht]
      simp

theorem getline_cb_spec (s : StringReader) (o : Nat) (h : s.m_begin = some o) :
    s.getline_cb =
      ((termPositions s.m_mmap.data o s.m_mmap.data.length).length + 1,
       (expectedLines s.m_mmap.data o s.m_mmap.data.length).map some ++ [none],
       { s with m_begin := none }) :=
  getline_cb_spec_aux (readerMeasure s) s o le_rfl h

/-! Computations on the one MiB single line file. -/

theorem bigFile_length : bigFile.length = 2 ^ 20 := by
  unfold bigFile
  rw [List.length_append, List.length_replicate]
  rfl

theorem bigFile_slice (o a : Nat) (h : o + a ≤ 2 ^ 20 - 1) :
    (bigFile.drop o).take a = List.replicate a 'x' := by
  unfold bigFile
  rw [List.drop_append_of_le_length (by rw [List.length_replicate]; omega)]
  rw [List.drop_replicate]
  rw [List.take_append_of_le_length (by rw [List.length_replicate]; omega)]
  rw [List.take_replicate]
  congr 1
  omega
theorem findIdx_replicate (m : Nat) :
    (List.replicate m 'x').findIdx (· == '\n') = m := by
  have h := @List.findIdx_eq_length_of_false _ (· == '\n') (List.replicate m 'x') ?_
  · rw [List.length_replicate] at h
    exact h
  · intro x hx
    rw [List.eq_of_mem_replicate hx]
    rfl

theorem findNL_bigFile_small (o e : Nat) (hoe : o ≤ e) (he : e ≤ 2 ^ 20 - 1) :
    findNL bigFile o e = e := by
  unfold findNL
  simp only
  rw [bigFile_slice o (e - o) (by omega)]
  rw [findIdx_replicate, List.length_replicate]
  rw [if_neg (by omega)]

theorem rfind_base_bigFile (o : Nat) (h : o + 2 ^ 19 ≤ 2 ^ 20 - 1) :
    rfind_base bigFile o (2 ^ 19) = o := by
  unfold rfind_base
  simp only
  rw [bigFile_slice o (2 ^ 19) h]
  rw [List.reverse_replicate, findIdx_replicate, List.length_replicate]
  rw [if_neg (by omega)]

theorem find_end_bigFile (o : Nat) (h : o + 2 ^ 19 ≤ 2 ^ 20 - 1) :
    find_end bigFile o (2 ^ 19) = o + 1 := by
  unfold find_end
  rw [rfind_base_bigFile o h]
theorem chunkLoop_zero (data : List Char) (adv b e : Nat) :
    chunkLoop data adv 0 b e = [] := rfl

theorem chunkLoop_succ (data : List Char) (adv i b e : Nat) :
    chunkLoop data adv (i + 1) b e =
      (b, e) :: chunkLoop data adv i e
        (if find_end data e adv ≤ data.length ∧
            data.length - find_end data e adv < adv
         then data.length else find_end data e adv) := rfl

theorem chunks_bigFile : chunks bigFile 2 0 = [(0, 1), (1, 2)] := by
  have h512 : (2 : Nat) ^ 20 / 2 = 2 ^ 19 := by norm_num
  have hf1 : find_end bigFile 1 524288 = 2 := find_end_bigFile 1 (by norm_num)
  have hf2 : find_end bigFile 2 524288 = 3 := find_end_bigFile 2 (by norm_num)
  unfold chunks
  rw [bigFile_length, h512]
  show chunkLoop bigFile (2 ^ 19) 2 0 (find_end bigFile 0 (2 ^ 19)) = [(0, 1), (1, 2)]
  rw [find_end_bigFile 0 (by norm_num)]
  norm_num [chunkLoop_succ, chunkLoop_zero, hf1, hf2, bigFile_length]
theorem findNL_of_ge (data : List Char) (o e : Nat) (h : e ≤ o) :
    findNL data o e = e := by
  unfold findNL
  simp only
  rw [show e - o = 0 from by omega, List.take_zero]
  simp

theorem termPositions_bigFile_small (o e : Nat) (hoe : o ≤ e)
    (he : e ≤ 2 ^ 20 - 1) : termPositions bigFile o e = [] :=
  termPositions_nil bigFile o e (by rw [bigFile_length]; omega)
    (findNL_bigFile_small o e hoe he)

theorem findNL_bigFile_full : findNL bigFile 0 (2 ^ 20) = 2 ^ 20 - 1 := by
  unfold findNL
  simp only
  rw [List.drop_zero, Nat.sub_zero, List.take_of_length_le bigFile_length.le]
  have hidx : bigFile.findIdx (· == '\n') = 2 ^ 20 - 1 := by
    unfold bigFile
    rw [List.findIdx_append, findIdx_replicate, List.length_replicate]
    rw [if_neg (by norm_num)]
    rw [show (['\n'] : List Char).findIdx (· == '\n') = 0 from rfl]
    norm_num
  rw [hidx, bigFile_length, if_pos (by norm_num)]
  norm_num

theorem termPositions_bigFile_full :
    termPositions bigFile 0 (2 ^ 20) = [2 ^ 20 - 1] := by
  have hne : findNL bigFile 0 (2 ^ 20) ≠ 2 ^ 20 := by
    rw [findNL_bigFile_full]
    norm_num
  have hc := termPositions_cons bigFile 0 (2 ^ 20) bigFile_length.ge hne
  rw [findNL_bigFile_full] at hc
  rw [termPositions_nil bigFile (2 ^ 20 - 1 + 1) (2 ^ 20) bigFile_length.ge
    (findNL_of_ge bigFile (2 ^ 20 - 1 + 1) (2 ^ 20) (by norm_num))] at hc
  exact hc

theorem do_getline_async_bigFile_01 : (do_getline_async bigFile 0 1).1 = 0 := by
  rw [do_getline_async_spec bigFile 0 1 (by omega) (by rw [bigFile_length]; norm_num)]
  rw [termPositions_bigFile_small 0 1 (by omega) (by norm_num)]
  rfl

theorem do_getline_async_bigFile_12 : (do_getline_async bigFile 1 2).1 = 0 := by
  rw [do_getline_async_spec bigFile 1 2 (by omega) (by rw [bigFile_length]; norm_num)]
  rw [termPositions_bigFile_small 1 2 (by omega) (by norm_num)]
  rfl

theorem getline_async_bigFile : getline_async 2 (2 ^ 20) bigFile = 0 := by
  unfold getline_async
  rw [if_neg (by rw [bigFile_length]; norm_num)]
  rw [chunks_bigFile]
  rw [List.map_cons, List.map_cons, List.map_nil]
  rw [do_getline_async_bigFile_01, do_getline_async_bigFile_12]
  rfl

theorem getline_cb_bigFile :
    (StringReader.ofContents bigFile).getline_cb.1 = 2 := by
  have h := getline_cb_spec (StringReader.ofContents bigFile) 0 rfl
  rw [h]
  have hd : (StringReader.ofContents bigFile).m_mmap.data = bigFile := rfl
  rw [hd, bigFile_length, termPositions_bigFile_full]
  rfl

theorem bigFile_last : bigFile[2 ^ 20 - 1]? = some '\n' := by
  unfold bigFile
  rw [List.getElem?_append_right (le_of_eq (List.length_replicate (2 ^ 20 - 1) 'x'))]
  rw [List.length_replicate, Nat.sub_self]
  rfl

theorem getline_cb_final_state (s : StringReader) :
    s.getline_cb.2.2 = { s with m_begin := none } := by
  cases hm : s.m_begin with
  | none =>
    rw [getline_cb_eof s hm]
    obtain ⟨mm, mb⟩ := s
    simp only at hm
    rw [hm]
  | some o => rw [getline_cb_spec s o hm]

/-! Claim theorems. -/

/-- C1: the claim states that for every file in which every line ends with a
terminator and every NumThreads with 2 ≤ NumThreads ≤ 8, getline_async returns
the same total line count as the sequential push getline with the same
handler. The code violates it: on the one MiB file holding one terminated line
(2 ^ 20 - 1 x bytes then LF, last byte a terminator, exactly one terminator),
with NumThreads = 2 and the smallest admissible MinFileByteSize, the parallel
path returns 0 while the sequential push driver returns 2; the two counts
differ (and the true line count is 1). -/
theorem claim1_parallel_vs_sequential_count :
    getline_async 2 (2 ^ 20) bigFile = 0 ∧
      (StringReader.ofContents bigFile).getline_cb.1 = 2 ∧
      (termPositions bigFile 0 bigFile.length).length = 1 ∧
      bigFile[2 ^ 20 - 1]? = some '\n' :=
  ⟨getline_async_bigFile, getline_cb_bigFile,
    by rw [bigFile_length, termPositions_bigFile_full]; rfl, bigFile_last⟩

/-- C2: the claim states that a boundary produced by the backward search from
an ideal offset is the byte immediately after the nearest terminator, so that
every boundary falls on a line start. The code violates it: on the window
[0, 4) of the bytes a LF b c, the only terminator below the ideal offset 4 is
at index 1, so the claimed boundary is 2, but find_end returns 3 (std::next is
applied to the reverse iterator base, which is already one past the
terminator), a position inside the line that starts at 2. -/
theorem claim2_find_end_off_by_one :
    find_end ['a', '\n', 'b', 'c'] 0 4 = 3 ∧
      (['a', '\n', 'b', 'c'] : List Char)[1]? = some '\n' ∧
      (∀ i, i < 4 → 1 < i → (['a', '\n', 'b', 'c'] : List Char)[i]? ≠ some '\n') := by
  refine ⟨by decide, by decide, by decide⟩

/-- C3: the claim states that the chunk ranges dispatched by getline_async are
contiguous, non overlapping, that their concatenation reproduces the full
mapped region exactly, and that the final chunk end is the true region end.
The code violates the coverage part: on the one MiB single line file with
NumThreads = 2 the dispatched chunks are [0, 1) and [1, 2), so the final chunk
end is 2 while the region end is 2 ^ 20, and bytes [2, 2 ^ 20) are never
dispatched to any worker. -/
theorem claim3_chunks_do_not_cover :
    chunks bigFile 2 0 = [(0, 1), (1, 2)] ∧ bigFile.length = 2 ^ 20 :=
  ⟨chunks_bigFile, bigFile_length⟩

/-- C4: the claim states that on the file a LF b LF c the sequential API
yields the views a and b only, drops the trailing c, and reports a total line
count of 2. The code yields the views a and b, never yields c, but makes a
third handler invocation with the end of file sentinel view and counts it, so
the reported count is 3, not 2. -/
theorem claim4_trailing_drop_count :
    (StringReader.ofContents fileA).getline_cb.1 = 3 ∧
      (StringReader.ofContents fileA).getline_cb.2.1 =
        [some (0, 1), some (2, 1), none] ∧
      viewBytes fileA (some (0, 1)) = ['a'] ∧
      viewBytes fileA (some (2, 1)) = ['b'] := by
  have h := getline_cb_spec (StringReader.ofContents fileA) 0 rfl
  refine ⟨by rw [h]; decide, by rw [h]; decide, by decide, by decide⟩

/-- C5: the claim states that on a mapped non-empty file with no terminator at
all the sequential push read reports 0 lines and eof() is true immediately
after the first scan attempt. The code reports 1 (the single handler
invocation, made with the end of file sentinel, is counted); eof() after the
first getline() call is indeed true. -/
theorem claim5_no_terminator_count :
    (StringReader.ofContents fileB).getline_cb.1 = 1 ∧
      (StringReader.ofContents fileB).getline.2.eof = true := by
  have h := getline_cb_spec (StringReader.ofContents fileB) 0 rfl
  refine ⟨by rw [h]; decide, by decide⟩

/-- C6: on the file a LF b LF c LF, successive pull getline() calls return
views whose bytes are a, b, c in that order, terminator excluded, and the next
call returns the end of file sentinel after which eof() is true. -/
theorem claim6_pull_views :
    viewBytes fileC (StringReader.ofContents fileC).getline.1 = ['a'] ∧
      (StringReader.ofContents fileC).getline.1.isSome = true ∧
      viewBytes fileC (StringReader.ofContents fileC).getline.2.getline.1 = ['b'] ∧
      (StringReader.ofContents fileC).getline.2.getline.1.isSome = true ∧
      viewBytes fileC
        (StringReader.ofContents fileC).getline.2.getline.2.getline.1 = ['c'] ∧
      (StringReader.ofContents fileC).getline.2.getline.2.getline.1.isSome = true ∧
      (StringReader.ofContents fileC).getline.2.getline.2.getline.2.getline.1 =
        none ∧
      (StringReader.ofContents fileC).getline.2.getline.2.getline.2.getline.2.eof =
        true := by
  decide

/-- C7 counterexample: after the sequential driver has consumed the final line
of the file a LF (the reader is at eof), is_mapped() is still true, refuting
the claim that it is false at that point. -/
theorem claim7_counterexample_mapped_after_eof :
    (StringReader.ofContents ['a', '\n']).getline_cb.2.2.eof = true ∧
      (StringReader.ofContents ['a', '\n']).getline_cb.2.2.is_mapped = true := by
  have h := getline_cb_spec (StringReader.ofContents ['a', '\n']) 0 rfl
  rw [h]
  exact ⟨rfl, rfl⟩

/-- C7 amended: is_mapped() is true immediately after successful construction
and false after the mapping is explicitly released (the destructor path); the
sequential driver leaves the mapping untouched, so after it consumes the final
line the reader reports eof() while is_mapped() is unchanged — it stays true
until the mapping is explicitly released. -/
theorem claim7_is_mapped_lifecycle (contents : List Char) (s : StringReader) :
    (StringReader.ofContents contents).is_mapped = true ∧
      s.release.is_mapped = false ∧
      s.getline_cb.2.2.is_mapped = s.is_mapped ∧
      s.getline_cb.2.2.eof = true := by
  refine ⟨rfl, rfl, ?_, ?_⟩
  · rw [getline_cb_final_state s]
    rfl
  · rw [getline_cb_final_state s]
    rfl

/-- C8: for every mapped file whose size is strictly below MinFileByteSize,
getline_async does not run the parallel path: it falls back to the sequential
push getline and returns exactly that call's count (the template constraints
2 ≤ NumThreads ≤ 8 and 1 MiB ≤ MinFileByteSize are carried as hypotheses). -/
theorem claim8_small_file_fallback (numThreads minBytes : Nat) (data : List Char)
    (h2 : 2 ≤ numThreads) (h8 : numThreads ≤ 8) (hmb : 1024 * 1024 ≤ minBytes)
    (hsz : data.length < minBytes) :
    getline_async numThreads minBytes data =
      (StringReader.ofContents data).getline_cb.1 := by
  unfold getline_async
  rw [if_pos hsz]

theorem claim8_witness :
    2 ≤ 2 ∧ (2 : Nat) ≤ 8 ∧ 1024 * 1024 ≤ 2 ^ 20 ∧
      (['a'] : List Char).length < 2 ^ 20 ∧
      getline_async 2 (2 ^ 20) ['a'] =
        (StringReader.ofContents ['a']).getline_cb.1 :=
  ⟨by decide, by decide, by norm_num, by decide,
    claim8_small_file_fallback 2 (2 ^ 20) ['a'] (by decide) (by decide)
      (by norm_num) (by decide)⟩

/-- C9: constructing a reader on a path naming a non-existent or unreadable
file fails at construction with a descriptive error propagated to the caller
and never produces a reader object. The mapping step is the external
collaborator, modelled from the spec. -/
theorem claim9_construct_error (fs : String → Option (List Char)) (path : String)
    (h : fs path = none) :
    StringReader.construct fs path =
      Except.error ("cannot open or map file: " ++ path) := by
  unfold StringReader.construct
  rw [h]

theorem claim9_witness :
    (fun _ : String => (none : Option (List Char))) "data.txt" = none ∧
      StringReader.construct (fun _ => none) "data.txt" =
        Except.error ("cannot open or map file: " ++ "data.txt") :=
  ⟨rfl, claim9_construct_error (fun _ => none) "data.txt" rfl⟩

/-- C10: for every in-bounds byte range [a_begin, a_end), the per chunk worker
do_getline_async returns exactly the number of terminators in the range, and
its handler invocations are one per terminator, in increasing position order,
each with the view spanning from one past the previous terminator (or from
a_begin) up to that terminator, exclusive. -/
theorem claim10_worker_scan (data : List Char) (b e : Nat) (hbe : b ≤ e)
    (hel : e ≤ data.length) :
    do_getline_async data b e =
      ((termPositions data b e).length, expectedLines data b e) :=
  do_getline_async_spec data b e hbe hel

theorem claim10_witness :
    (0 : Nat) ≤ 4 ∧ 4 ≤ (['a', '\n', '\n', 'b'] : List Char).length ∧
      do_getline_async ['a', '\n', '\n', 'b'] 0 4 =
        ((termPositions ['a', '\n', '\n', 'b'] 0 4).length,
          expectedLines ['a', '\n', '\n', 'b'] 0 4) :=
  ⟨by decide, by decide,
    claim10_worker_scan ['a', '\n', '\n', 'b'] 0 4 (by decide) (by decide)⟩

end Wxlib
